import Mathlib

/-!
Shallow embedding of `src/extensions/poll_utils.py` (the `PollUtils`
extension of the Inquiry poll bot): the five export commands
(`export_csv`, `export_json`, `export_yaml`, `export_pie`, `export_bar`),
their inner `write_buffer` helpers, the `poll_autocomplete` fuzzy
resolver, and the lock/send/close control flow of each export command.

Modelling conventions:
- A voter identifier is a `Nat` (Discord snowflake); `get_user` is an
  abstract parameter `getUser : Nat → String` (the Python helper returns
  `user.username` on success and falls back to the raw id on failure, so
  its observable type is identifier → display string).
- A Python `dict` built by repeated `buffer[key] = value` assignments is
  an association list with insert-or-update semantics: an update keeps
  the key at its first-insertion position and replaces the value.
- `csv` cells are `Option String`: `some s` is a written cell, `none` is
  the `None` padding value, which `csv.writer` serialises as an empty
  (quoted) cell.
- `yaml.dump` is called without `sort_keys=False`, so PyYAML emits the
  mapping keys in ascending (sorted) order; `json.dump` keeps dict
  insertion order.
-/

/-- One poll option: its label text and its voters, in iteration order
(`option.text`, `option.voters` in the source). -/
structure PollOption where
  text : String
  voters : List Nat
  deriving DecidableEq

/-- The fields of `models.poll.PollData` that `poll_utils.py` reads:
`title`, `message_id`, `author_id` and `poll_options`. -/
structure PollData where
  title : String
  message_id : Nat
  author_id : Nat
  poll_options : List PollOption
  deriving DecidableEq

/-- Python dict assignment `d[k] = v`: update in place if the key exists
(keeping its original position), otherwise append the new pair. -/
def dictInsert {α β : Type} [DecidableEq α] (k : α) (v : β) :
    List (α × β) → List (α × β)
  | [] => [(k, v)]
  | (k0, v0) :: rest =>
      if k0 = k then (k0, v) :: rest else (k0, v0) :: dictInsert k v rest

/-- Build a Python dict from a sequence of `d[k] = v` assignments. -/
def dictOfPairs {α β : Type} [DecidableEq α] (prs : List (α × β)) :
    List (α × β) :=
  prs.foldl (fun d pr => dictInsert pr.1 pr.2 d) []

/-- Python `d.get(k)` on the association-list model of a dict. -/
def dictLookup {α β : Type} [DecidableEq α] (k : α) :
    List (α × β) → Option β
  | [] => none
  | (k0, v0) :: rest => if k0 = k then some v0 else dictLookup k rest

/- ### The csv export (`export_csv.write_buffer` and its `rotate`) -/

/-- Length of the shortest list, used to model `zip(*lists)` (Python
`zip` stops at the shortest argument). -/
def minLen : List (List (Option String)) → Nat
  | [] => 0
  | [sub] => sub.length
  | sub :: rest@(_ :: _) => min sub.length (minLen rest)

/-- `list(zip(*ls))`: row `i` collects the `i`-th element of every list,
for `i` below the length of the shortest list; `zip()` of no lists is
empty. -/
def pyZip (ls : List (List (Option String))) : List (List (Option String)) :=
  match ls with
  | [] => []
  | _ :: _ => (List.range (minLen ls)).map fun i => ls.map fun sub => sub.getD i none

/-- `rotate` from `export_csv.write_buffer`: pad every column with
`None` up to `expected_len = max(map(len, input_list))`, then transpose
with `zip`. `max()` of an empty sequence raises `ValueError`, modelled
as `none`. -/
def rotate (input_list : List (List (Option String))) :
    Option (List (List (Option String))) :=
  match input_list with
  | [] => none
  | _ :: _ =>
    let expected_len := (input_list.map List.length).foldr max 0
    let padded := input_list.map fun sub =>
      sub ++ List.replicate (expected_len - sub.length) (none : Option String)
    some (pyZip padded)

/-- The per-option csv columns: `[option.text] + [get_user(v) for v in
option.voters]` for each option, in option order. -/
def csvColumns (getUser : Nat → String) (opts : List PollOption) :
    List (List (Option String)) :=
  opts.map fun o => some o.text :: o.voters.map fun v => some (getUser v)

/-- `export_csv.write_buffer` up to the `csv.writer` call: the row
matrix handed to `writer.writerows` (or `none` when `rotate` raises). -/
def export_csv_rows (getUser : Nat → String) (p : PollData) :
    Option (List (List (Option String))) :=
  rotate (csvColumns getUser p.poll_options)

/-- One csv cell as written by `csv.writer(..., quoting=csv.QUOTE_ALL)`:
every cell is quoted, internal quotes are doubled, and the `None`
padding value becomes an empty quoted cell. -/
def csvCell : Option String → String
  | none => "\"\""
  | some s => "\"" ++ s.replace "\"" "\"\"" ++ "\""

/-- One csv record: quoted cells joined by commas, terminated by the
writer's default `\r\n`. -/
def csvLine (row : List (Option String)) : String :=
  String.intercalate "," (row.map csvCell) ++ "\r\n"

/-- The full text payload of `export_csv.write_buffer`. -/
def export_csv_payload (getUser : Nat → String) (p : PollData) :
    Option String :=
  (export_csv_rows getUser p).map fun rows =>
    String.join (rows.map csvLine)

/- ### The shared dict buffer of the json / yaml / pie / bar exports -/

/-- The dict `buffer` built identically by `export_json.write_buffer`,
`export_yaml.write_buffer`, `export_pie.write_buffer` and
`export_bar.write_buffer`: `buffer[option.text] = [get_user(v) for v in
option.voters]` for each option in order. -/
def buildBuffer (getUser : Nat → String) (opts : List PollOption) :
    List (String × List String) :=
  dictOfPairs (opts.map fun o => (o.text, o.voters.map getUser))

/-- A JSON string literal (quote doubling of the characters relevant to
this model: backslash and double quote). -/
def jsonStr (s : String) : String :=
  "\"" ++ ((s.replace "\\" "\\\\").replace "\"" "\\\"") ++ "\""

/-- `json.dump` of the dict buffer: keys in dict insertion order. -/
def jsonRender (buffer : List (String × List String)) : String :=
  "\x7b" ++ String.intercalate ", " (buffer.map fun kv =>
    jsonStr kv.1 ++ ": [" ++ String.intercalate ", " (kv.2.map jsonStr) ++ "]") ++ "\x7d"

/-- `export_json.write_buffer`: the serialised json payload. -/
def export_json_payload (getUser : Nat → String) (p : PollData) : String :=
  jsonRender (buildBuffer getUser p.poll_options)

/-- Python's string comparison `a <= b` on the code-point sequences:
lexicographic, by code point. -/
def charListLe : List Char → List Char → Bool
  | [], _ => true
  | _ :: _, [] => false
  | a :: as, b :: bs =>
      if a.toNat < b.toNat then true
      else if b.toNat < a.toNat then false
      else charListLe as bs

/-- Python's `a <= b` on strings (the order `sorted()` uses). -/
def strLe (a b : String) : Bool := charListLe a.data b.data

/-- Insert a key/value pair into a list sorted by ascending key. -/
def insertPairSorted (kv : String × List String) :
    List (String × List String) → List (String × List String)
  | [] => [kv]
  | x :: xs => if strLe kv.1 x.1 then kv :: x :: xs else x :: insertPairSorted kv xs

/-- Stable insertion sort by ascending key: PyYAML's
`sort_keys=True` (the default used by `yaml.dump` in the source) emits
mapping entries sorted by key. -/
def sortPairsByKey (l : List (String × List String)) :
    List (String × List String) :=
  l.foldr insertPairSorted []

/-- One YAML block entry for a key and its list value. -/
def yamlEntry (kv : String × List String) : String :=
  if kv.2.isEmpty then kv.1 ++ ": []\n"
  else kv.1 ++ ":\n" ++ String.join (kv.2.map fun v => "- " ++ v ++ "\n")

/-- `yaml.dump` of the dict buffer with the default Dumper: entries
sorted by key. -/
def yamlRender (buffer : List (String × List String)) : String :=
  String.join ((sortPairsByKey buffer).map yamlEntry)

/-- `export_yaml.write_buffer`: the serialised yaml payload. -/
def export_yaml_payload (getUser : Nat → String) (p : PollData) : String :=
  yamlRender (buildBuffer getUser p.poll_options)

/-- The option texts of a poll, in stored option order. -/
def pollTexts (p : PollData) : List String :=
  p.poll_options.map fun o => o.text

/-- The key sequence of the emitted json document. -/
def jsonKeys (getUser : Nat → String) (p : PollData) : List String :=
  (buildBuffer getUser p.poll_options).map Prod.fst

/-- The key sequence of the emitted yaml document. -/
def yamlKeys (getUser : Nat → String) (p : PollData) : List String :=
  (sortPairsByKey (buildBuffer getUser p.poll_options)).map Prod.fst

/- ### The pie / bar chart data (`export_pie.write_buffer`,
`export_bar.write_buffer`) -/

/-- `arr = np.array([len(x) for x in buffer.values()])`: the vote count
vector handed to `plt.pie` / `plt.bar`. -/
def chartCounts (getUser : Nat → String) (p : PollData) : List Nat :=
  (buildBuffer getUser p.poll_options).map fun kv => kv.2.length

/-- `labels = list(buffer.keys())`: the label vector handed to
`plt.pie` / `plt.bar`. -/
def chartLabels (getUser : Nat → String) (p : PollData) : List String :=
  (buildBuffer getUser p.poll_options).map Prod.fst

/-- The last poll option carrying a given text, if any (the option whose
voter list survives the dict overwrite `buffer[option.text] = ...`). -/
def lastWithText (t : String) : List PollOption → Option PollOption
  | [] => none
  | o :: rest =>
      match lastWithText t rest with
      | some o' => some o'
      | none => if o.text = t then some o else none

/- ### The fuzzy resolver (`poll_autocomplete`) -/

/-- The `predicate` closure of `poll_autocomplete`: a poll is visible to
the caller when `_poll.author_id == ctx.author.id` or the caller has the
`MANAGE_MESSAGES` permission. -/
def autocompletePredicate (callerId : Nat) (priv : Bool) (p : PollData) :
    Bool :=
  p.author_id == callerId || priv

/-- Stable descending insertion by score into an already
score-descending list (a tie goes after the equal scores already
placed, so earlier input stays first). -/
def insertScoredDesc (x : String × Nat × Nat) :
    List (String × Nat × Nat) → List (String × Nat × Nat)
  | [] => [x]
  | y :: ys => if x.2.1 > y.2.1 then x :: y :: ys else y :: insertScoredDesc x ys

/-- Stable sort, descending by score (`thefuzz.process.extract` returns
its choices best-score first; ties keep the choices' order). -/
def sortScoredDesc : List (String × Nat × Nat) → List (String × Nat × Nat)
  | [] => []
  | x :: xs => insertScoredDesc x (sortScoredDesc xs)

/-- `thefuzz.process.extract(query, choices, limit)` over a dict of
choices `{key: title}`: score every title against the query with the
similarity scorer, sort descending by score, return the top `limit`
triples `(title, score, key)`. The scorer itself is an abstract
parameter (an external library function returning 0-100). -/
def fuzzExtract (score : String → String → Nat) (query : String)
    (choices : List (Nat × String)) (limit : Nat) :
    List (String × Nat × Nat) :=
  (sortScoredDesc (choices.map fun c => (c.2, score query c.2, c.1))).take limit

/-- The choices dict of `poll_autocomplete`:
`{p.message_id: p.title for p in polls if predicate(p)}`. -/
def candChoices (callerId : Nat) (priv : Bool) (polls : List PollData) :
    List (Nat × String) :=
  dictOfPairs ((polls.filter (autocompletePredicate callerId priv)).map
    fun p => (p.message_id, p.title))

/-- The ranked branch of `poll_autocomplete`: `process.extract(...,
limit=25)` followed by the `p[1] > 50` filter. -/
def rankedResults (score : String → String → Nat) (query : String)
    (callerId : Nat) (priv : Bool) (polls : List PollData) :
    List (String × Nat × Nat) :=
  (fuzzExtract score query (candChoices callerId priv polls) 25).filter
    fun r => 50 < r.2.1

/-- One autocomplete entry sent back to Discord:
`name = f"{p.title} ({Timestamp.from_snowflake(p.message_id).ctime()})"`,
`value = str(p.message_id)`; the timestamp formatter is an abstract
parameter. -/
def displayEntry (fmtTime : Nat → String) (p : PollData) : String × String :=
  (p.title ++ " (" ++ fmtTime p.message_id ++ ")", toString p.message_id)

/-- `poll_autocomplete`: `polls` is the cache answer (`none` models an
absent/None answer). A falsy answer (absent or empty) sends `[]`; an
empty query sends the first 25 polls unfiltered; otherwise the ranked
results are resolved back to polls through
`poll_cache.get_poll_by_message` (a lookup by `message_id` in the same
cache) and formatted. -/
def poll_autocomplete (score : String → String → Nat)
    (fmtTime : Nat → String) (query : String) (callerId : Nat)
    (priv : Bool) (polls : Option (List PollData)) :
    List (String × String) :=
  match polls with
  | none => []
  | some ps =>
    if ps.isEmpty then []
    else
      let results : List PollData :=
        if query = "" then ps.take 25
        else (rankedResults score query callerId priv ps).filterMap
          fun r => ps.find? fun p => p.message_id == r.2.2
      results.map (displayEntry fmtTime)

/- ### Control flow of the export commands -/

/-- The five export subcommands. -/
inductive ExportFormat
  | csv
  | json
  | yaml
  | pie
  | bar
  deriving DecidableEq

/-- The observable events of one export command run, in the source's
statement order: enter `async with poll.lock`, run `write_buffer` in
`asyncio.to_thread` (which both copies the poll data out and encodes
it), `await ctx.send(file=...)`, `file.close()`, and leave the
`async with` block (releasing the lock). -/
inductive ExportEvent
  | lockAcquire
  | encodeBuffer
  | sendFile
  | closeBuffer
  | lockRelease
  deriving DecidableEq

/-- The success-path event trace of each export command. Every one of
the five commands has the same body shape: `async with poll.lock:`
wrapping `file = await asyncio.to_thread(write_buffer, poll)`, then
`await ctx.send(file=File(file, ...))`, then `file.close()`
(lines 120-123, 148-151, 176-179, 211-214 and 246-249 of
`poll_utils.py`). -/
def exportTrace : ExportFormat → List ExportEvent
  | .csv =>
    [.lockAcquire, .encodeBuffer, .sendFile, .closeBuffer, .lockRelease]
  | .json =>
    [.lockAcquire, .encodeBuffer, .sendFile, .closeBuffer, .lockRelease]
  | .yaml =>
    [.lockAcquire, .encodeBuffer, .sendFile, .closeBuffer, .lockRelease]
  | .pie =>
    [.lockAcquire, .encodeBuffer, .sendFile, .closeBuffer, .lockRelease]
  | .bar =>
    [.lockAcquire, .encodeBuffer, .sendFile, .closeBuffer, .lockRelease]

/-- The poll lock is held while event `e` happens in trace `t`: the
acquire comes before `e` and the release after it. -/
def lockHeldDuring (t : List ExportEvent) (e : ExportEvent) : Prop :=
  t.indexOf ExportEvent.lockAcquire < t.indexOf e ∧
  t.indexOf e < t.indexOf ExportEvent.lockRelease

instance (t : List ExportEvent) (e : ExportEvent) :
    Decidable (lockHeldDuring t e) := by
  unfold lockHeldDuring; infer_instance

/- ### Exception flow of the export body (buffer release) -/

/-- The three statements inside the `async with` block that touch the
output buffer. -/
inductive BodyStep
  | encodeStep
  | sendStep
  | closeStep
  deriving DecidableEq

/-- What an export run has accomplished. -/
structure ExportState where
  encoded : Bool
  sent : Bool
  bufferClosed : Bool
  deriving DecidableEq

/-- Effect of one statement on the run state. -/
def runStep (s : ExportState) : BodyStep → ExportState
  | .encodeStep => { s with encoded := true }
  | .sendStep => { s with sent := true }
  | .closeStep => { s with bufferClosed := true }

/-- Execute the statements of the `async with` body in order. The body
has no `try`/`finally`: a statement that raises (`failing`) aborts
every later statement — the exception propagates out of the
`async with` (which releases the lock but closes no buffer). -/
def runBody (failing : Option BodyStep) :
    List BodyStep → ExportState → ExportState
  | [], s => s
  | st :: rest, s =>
      if failing = some st then s
      else runBody failing rest (runStep s st)

/-- The statement list of every export command's `async with` body:
encode in a worker thread, send the file, close the buffer. -/
def exportBody : List BodyStep := [.encodeStep, .sendStep, .closeStep]

/-- Run one export body, with an optional failing statement. -/
def runExport (failing : Option BodyStep) : ExportState :=
  runBody failing exportBody ⟨false, false, false⟩

/-- The last pair carrying a given key, if any (generic version of
`lastWithText` for dict-building pair lists). -/
def lastPairWith {α β : Type} [DecidableEq α] (k : α) :
    List (α × β) → Option (α × β)
  | [] => none
  | pr :: rest =>
      match lastPairWith k rest with
      | some pr' => some pr'
      | none => if pr.1 = k then some pr else none

/- ### Helper lemmas about the Python dict model -/

lemma mem_dictInsert {α β : Type} [DecidableEq α] (kv : α × β) (k : α)
    (v : β) (d : List (α × β)) (h : kv ∈ dictInsert k v d) :
    kv = (k, v) ∨ kv ∈ d := by
  induction d with
  | nil => simpa [dictInsert] using h
  | cons hd tl ih =>
    obtain ⟨k0, v0⟩ := hd
    rw [dictInsert] at h
    by_cases hk : k0 = k
    · simp only [if_pos hk] at h
      rcases List.mem_cons.mp h with h1 | h2
      · exact Or.inl (by simpa [hk] using h1)
      · exact Or.inr (List.mem_cons_of_mem _ h2)
    · simp only [if_neg hk] at h
      rcases List.mem_cons.mp h with h1 | h2
      · exact Or.inr (h1 ▸ List.mem_cons_self _ _)
      · rcases ih h2 with h3 | h4
        · exact Or.inl h3
        · exact Or.inr (List.mem_cons_of_mem _ h4)

lemma keys_dictInsert {α β : Type} [DecidableEq α] (k : α) (v : β)
    (d : List (α × β)) :
    (dictInsert k v d).map Prod.fst =
      if k ∈ d.map Prod.fst then d.map Prod.fst
      else d.map Prod.fst ++ [k] := by
  induction d with
  | nil => simp [dictInsert]
  | cons hd tl ih =>
    obtain ⟨k0, v0⟩ := hd
    rw [dictInsert]
    by_cases hk : k0 = k
    · subst hk
      simp
    · simp only [if_neg hk, List.map_cons, ih, List.mem_cons]
      by_cases hmem : k ∈ tl.map Prod.fst
      · simp [hmem]
      · have hne : ¬k = k0 := fun h => hk h.symm
        simp [hmem, hne]

lemma mem_keys_dictInsert {α β : Type} [DecidableEq α] (a k : α) (v : β)
    (d : List (α × β)) :
    a ∈ (dictInsert k v d).map Prod.fst ↔
      a = k ∨ a ∈ d.map Prod.fst := by
  rw [keys_dictInsert]
  by_cases hmem : k ∈ d.map Prod.fst
  · simp only [if_pos hmem]
    constructor
    · exact fun h => Or.inr h
    · rintro (h | h)
      · exact h ▸ hmem
      · exact h
  · simp only [if_neg hmem, List.mem_append, List.mem_singleton]
    tauto

lemma nodup_keys_dictInsert {α β : Type} [DecidableEq α] (k : α) (v : β)
    (d : List (α × β)) (h : (d.map Prod.fst).Nodup) :
    ((dictInsert k v d).map Prod.fst).Nodup := by
  rw [keys_dictInsert]
  by_cases hmem : k ∈ d.map Prod.fst
  · simpa [hmem] using h
  · simp only [if_neg hmem]
    exact List.Nodup.append h (List.nodup_singleton k)
      (by simpa [List.disjoint_singleton] using hmem)

lemma dictLookup_dictInsert {α β : Type} [DecidableEq α] (k k' : α)
    (v : β) (d : List (α × β)) :
    dictLookup k' (dictInsert k v d) =
      if k = k' then some v else dictLookup k' d := by
  induction d with
  | nil => simp [dictInsert, dictLookup]
  | cons hd tl ih =>
    obtain ⟨k0, v0⟩ := hd
    rw [dictInsert]
    by_cases hk : k0 = k
    · subst hk
      by_cases hk' : k0 = k'
      · simp [dictLookup, hk']
      · simp [dictLookup, hk']
    · by_cases hk' : k0 = k'
      · subst hk'
        simp only [if_neg hk, dictLookup, if_pos rfl]
        have : ¬k = k0 := fun h => hk h.symm
        simp [this]
      · simp [if_neg hk, dictLookup, hk', ih]

lemma mem_dictFold {α β : Type} [DecidableEq α] (prs : List (α × β)) :
    ∀ (acc : List (α × β)) (kv : α × β),
      kv ∈ prs.foldl (fun d pr => dictInsert pr.1 pr.2 d) acc →
      kv ∈ acc ∨ kv ∈ prs := by
  induction prs with
  | nil => intro acc kv h; exact Or.inl (by simpa using h)
  | cons pr prs ih =>
    intro acc kv h
    rw [List.foldl_cons] at h
    rcases ih _ kv h with h1 | h2
    · rcases mem_dictInsert kv pr.1 pr.2 acc h1 with h3 | h4
      · exact Or.inr (by simp [h3])
      · exact Or.inl h4
    · exact Or.inr (List.mem_cons_of_mem _ h2)

lemma mem_dictOfPairs {α β : Type} [DecidableEq α] (prs : List (α × β))
    (kv : α × β) (h : kv ∈ dictOfPairs prs) : kv ∈ prs := by
  rcases mem_dictFold prs [] kv h with h1 | h2
  · simp at h1
  · exact h2

lemma mem_keys_dictFold {α β : Type} [DecidableEq α] (prs : List (α × β)) :
    ∀ (acc : List (α × β)) (a : α),
      (a ∈ (prs.foldl (fun d pr => dictInsert pr.1 pr.2 d) acc).map Prod.fst ↔
        a ∈ acc.map Prod.fst ∨ a ∈ prs.map Prod.fst) := by
  induction prs with
  | nil => intro acc a; simp
  | cons pr prs ih =>
    intro acc a
    rw [List.foldl_cons, ih, mem_keys_dictInsert]
    simp only [List.map_cons, List.mem_cons]
    tauto

lemma mem_keys_dictOfPairs {α β : Type} [DecidableEq α]
    (prs : List (α × β)) (a : α) :
    a ∈ (dictOfPairs prs).map Prod.fst ↔ a ∈ prs.map Prod.fst := by
  rw [dictOfPairs, mem_keys_dictFold]
  simp

lemma nodup_keys_dictFold {α β : Type} [DecidableEq α]
    (prs : List (α × β)) :
    ∀ (acc : List (α × β)), (acc.map Prod.fst).Nodup →
      (((prs.foldl (fun d pr => dictInsert pr.1 pr.2 d) acc)).map
        Prod.fst).Nodup := by
  induction prs with
  | nil => intro acc h; simpa using h
  | cons pr prs ih =>
    intro acc h
    rw [List.foldl_cons]
    exact ih _ (nodup_keys_dictInsert pr.1 pr.2 acc h)

lemma nodup_keys_dictOfPairs {α β : Type} [DecidableEq α]
    (prs : List (α × β)) : ((dictOfPairs prs).map Prod.fst).Nodup :=
  nodup_keys_dictFold prs [] (by simp)

lemma dictLookup_dictFold {α β : Type} [DecidableEq α]
    (prs : List (α × β)) :
    ∀ (acc : List (α × β)) (k : α),
      dictLookup k (prs.foldl (fun d pr => dictInsert pr.1 pr.2 d) acc) =
        match lastPairWith k prs with
        | some pr => some pr.2
        | none => dictLookup k acc := by
  induction prs with
  | nil => intro acc k; simp [lastPairWith]
  | cons pr prs ih =>
    intro acc k
    rw [List.foldl_cons, ih, lastPairWith]
    cases hlast : lastPairWith k prs with
    | some pr' => simp
    | none =>
      simp only
      rw [dictLookup_dictInsert]
      by_cases hk : pr.1 = k
      · simp [hk]
      · simp [hk]

lemma dictLookup_dictOfPairs {α β : Type} [DecidableEq α]
    (prs : List (α × β)) (k : α) :
    dictLookup k (dictOfPairs prs) = (lastPairWith k prs).map Prod.snd := by
  rw [dictOfPairs, dictLookup_dictFold]
  cases hlast : lastPairWith k prs with
  | some pr' => simp
  | none => simp [dictLookup]

lemma lastPairWith_map_option {β : Type} (t : String)
    (g : PollOption → β) (opts : List PollOption) :
    lastPairWith t (opts.map fun o => (o.text, g o)) =
      (lastWithText t opts).map fun o => (o.text, g o) := by
  induction opts with
  | nil => simp [lastPairWith, lastWithText]
  | cons o rest ih =>
    rw [List.map_cons, lastPairWith, lastWithText, ih]
    cases lastWithText t rest with
    | some o' => simp
    | none =>
      simp only [Option.map_none]
      by_cases h : o.text = t
      · simp [h]
      · simp [h]

/- ### Helper lemmas about the two insertion sorts -/

lemma charListLe_total (l1 l2 : List Char) :
    charListLe l1 l2 = true ∨ charListLe l2 l1 = true := by
  induction l1 generalizing l2 with
  | nil => exact Or.inl rfl
  | cons a as ih =>
    cases l2 with
    | nil => exact Or.inr rfl
    | cons b bs =>
      rw [charListLe, charListLe]
      rcases Nat.lt_trichotomy a.toNat b.toNat with h | h | h
      · left; simp [h]
      · have h1 : ¬a.toNat < b.toNat := by omega
        have h2 : ¬b.toNat < a.toNat := by omega
        rcases ih bs with h3 | h3
        · left; simp [h1, h2, h3]
        · right; simp [h1, h2, h3]
      · right; simp [h]

lemma charListLe_trans (l1 l2 l3 : List Char)
    (h12 : charListLe l1 l2 = true) (h23 : charListLe l2 l3 = true) :
    charListLe l1 l3 = true := by
  induction l1 generalizing l2 l3 with
  | nil => rfl
  | cons a as ih =>
    cases l2 with
    | nil => simp [charListLe] at h12
    | cons b bs =>
      cases l3 with
      | nil => simp [charListLe] at h23
      | cons c cs =>
        rw [charListLe] at h12 h23 ⊢
        by_cases hab : a.toNat < b.toNat
        · by_cases hbc : b.toNat < c.toNat
          · have : a.toNat < c.toNat := by omega
            simp [this]
          · by_cases hcb : c.toNat < b.toNat
            · simp [hbc, hcb] at h23
            · have : a.toNat < c.toNat := by omega
              simp [this]
        · by_cases hba : b.toNat < a.toNat
          · simp [hab, hba] at h12
          · by_cases hbc : b.toNat < c.toNat
            · have : a.toNat < c.toNat := by omega
              simp [this]
            · by_cases hcb : c.toNat < b.toNat
              · simp [hbc, hcb] at h23
              · have h1 : ¬a.toNat < c.toNat := by omega
                have h2 : ¬c.toNat < a.toNat := by omega
                simp only [hab, hba, if_neg, ite_false] at h12
                simp only [hbc, hcb, if_neg, ite_false] at h23
                simp [h1, h2, ih bs cs h12 h23]

lemma strLe_total (a b : String) : strLe a b = true ∨ strLe b a = true :=
  charListLe_total a.data b.data

lemma strLe_trans (a b c : String) (h1 : strLe a b = true)
    (h2 : strLe b c = true) : strLe a c = true :=
  charListLe_trans a.data b.data c.data h1 h2

lemma perm_insertPairSorted (kv : String × List String)
    (l : List (String × List String)) :
    (insertPairSorted kv l).Perm (kv :: l) := by
  induction l with
  | nil => simp [insertPairSorted]
  | cons x xs ih =>
    rw [insertPairSorted]
    by_cases h : strLe kv.1 x.1 = true
    · rw [if_pos h]
    · rw [if_neg h]
      exact (ih.cons x).trans (List.Perm.swap kv x xs)

lemma perm_sortPairsByKey (l : List (String × List String)) :
    (sortPairsByKey l).Perm l := by
  induction l with
  | nil => simp [sortPairsByKey]
  | cons x xs ih =>
    have : sortPairsByKey (x :: xs) = insertPairSorted x (sortPairsByKey xs) := rfl
    rw [this]
    exact (perm_insertPairSorted x (sortPairsByKey xs)).trans (ih.cons x)

lemma sorted_insertPairSorted (kv : String × List String)
    (l : List (String × List String))
    (h : l.Pairwise fun a b => strLe a.1 b.1 = true) :
    (insertPairSorted kv l).Pairwise fun a b => strLe a.1 b.1 = true := by
  induction l with
  | nil => simp [insertPairSorted]
  | cons x xs ih =>
    rw [List.pairwise_cons] at h
    rw [insertPairSorted]
    by_cases hle : strLe kv.1 x.1 = true
    · rw [if_pos hle, List.pairwise_cons]
      refine ⟨?_, List.pairwise_cons.mpr h⟩
      intro b hb
      rcases List.mem_cons.mp hb with h1 | h2
      · exact h1 ▸ hle
      · exact strLe_trans _ _ _ hle (h.1 b h2)
    · rw [if_neg hle, List.pairwise_cons]
      refine ⟨?_, ih h.2⟩
      intro b hb
      have hb' := (perm_insertPairSorted kv xs).mem_iff.mp hb
      rcases List.mem_cons.mp hb' with h1 | h2
      · rcases strLe_total x.1 kv.1 with h3 | h3
        · exact h1 ▸ h3
        · exact absurd h3 hle
      · exact h.1 b h2

lemma sorted_sortPairsByKey (l : List (String × List String)) :
    (sortPairsByKey l).Pairwise fun a b => strLe a.1 b.1 = true := by
  induction l with
  | nil => simp [sortPairsByKey]
  | cons x xs ih =>
    have : sortPairsByKey (x :: xs) = insertPairSorted x (sortPairsByKey xs) := rfl
    rw [this]
    exact sorted_insertPairSorted x _ ih

lemma perm_insertScoredDesc (x : String × Nat × Nat)
    (l : List (String × Nat × Nat)) :
    (insertScoredDesc x l).Perm (x :: l) := by
  induction l with
  | nil => simp [insertScoredDesc]
  | cons y ys ih =>
    rw [insertScoredDesc]
    by_cases h : x.2.1 > y.2.1
    · simp [h]
    · simp only [if_neg h]
      exact (ih.cons y).trans (List.Perm.swap x y ys)

lemma perm_sortScoredDesc (l : List (String × Nat × Nat)) :
    (sortScoredDesc l).Perm l := by
  induction l with
  | nil => simp [sortScoredDesc]
  | cons x xs ih =>
    rw [sortScoredDesc]
    exact (perm_insertScoredDesc x (sortScoredDesc xs)).trans (ih.cons x)

lemma sorted_insertScoredDesc (x : String × Nat × Nat)
    (l : List (String × Nat × Nat))
    (h : l.Pairwise fun a b => b.2.1 ≤ a.2.1) :
    (insertScoredDesc x l).Pairwise fun a b => b.2.1 ≤ a.2.1 := by
  induction l with
  | nil => simp [insertScoredDesc]
  | cons y ys ih =>
    rw [List.pairwise_cons] at h
    rw [insertScoredDesc]
    by_cases hgt : x.2.1 > y.2.1
    · rw [if_pos hgt, List.pairwise_cons]
      refine ⟨?_, List.pairwise_cons.mpr h⟩
      intro b hb
      rcases List.mem_cons.mp hb with h1 | h2
      · exact h1 ▸ le_of_lt hgt
      · exact le_trans (h.1 b h2) (le_of_lt hgt)
    · rw [if_neg hgt, List.pairwise_cons]
      refine ⟨?_, ih h.2⟩
      intro b hb
      have hb' := (perm_insertScoredDesc x ys).mem_iff.mp hb
      rcases List.mem_cons.mp hb' with h1 | h2
      · exact h1 ▸ le_of_not_lt hgt
      · exact h.1 b h2

lemma sorted_sortScoredDesc (l : List (String × Nat × Nat)) :
    (sortScoredDesc l).Pairwise fun a b => b.2.1 ≤ a.2.1 := by
  induction l with
  | nil => simp [sortScoredDesc]
  | cons x xs ih =>
    rw [sortScoredDesc]
    exact sorted_insertScoredDesc x _ ih

/- ### Helper lemmas about `rotate` and the csv row matrix -/

/-- The maximum voter count over the options of a poll. -/
def maxVoterCount (opts : List PollOption) : Nat :=
  (opts.map fun o => o.voters.length).foldr max 0

lemma foldr_max_mem (l : List Nat) (x : Nat) (h : x ∈ l) :
    x ≤ l.foldr max 0 := by
  induction l with
  | nil => simp at h
  | cons a l ih =>
    rcases List.mem_cons.mp h with h1 | h2
    · exact h1 ▸ le_max_left a (l.foldr max 0)
    · exact le_trans (ih h2) (le_max_right a (l.foldr max 0))

lemma foldr_max_succ (l : List Nat) (h : l ≠ []) :
    (l.map (· + 1)).foldr max 0 = l.foldr max 0 + 1 := by
  induction l with
  | nil => exact absurd rfl h
  | cons a l ih =>
    cases l with
    | nil => simp
    | cons b bs =>
      have hne : b :: bs ≠ ([] : List Nat) := by simp
      rw [List.map_cons, List.foldr_cons, List.foldr_cons, ih hne]
      omega

lemma getD_replicate_none (k i : Nat) :
    (List.replicate k (none : Option String)).getD i none = none := by
  induction k generalizing i with
  | zero => simp
  | succ k ih =>
    cases i with
    | zero => simp [List.replicate]
    | succ i => simp [List.replicate, ih i]

lemma getD_append_replicate (l : List (Option String)) (k i : Nat) :
    (l ++ List.replicate k (none : Option String)).getD i none =
      l.getD i none := by
  induction l generalizing i with
  | nil => simp [getD_replicate_none k i]
  | cons a l ih =>
    cases i with
    | zero => simp
    | succ i => simpa using ih i

lemma minLen_eq (ls : List (List (Option String))) (n : Nat)
    (hne : ls ≠ []) (hall : ∀ l ∈ ls, l.length = n) : minLen ls = n := by
  induction ls with
  | nil => exact absurd rfl hne
  | cons sub rest ih =>
    cases rest with
    | nil => simpa [minLen] using hall sub (by simp)
    | cons b bs =>
      have h1 : sub.length = n := hall sub (by simp)
      have h2 : minLen (b :: bs) = n :=
        ih (by simp) fun l hl => hall l (List.mem_cons_of_mem _ hl)
      rw [minLen, h1, h2, min_self]

/-- `rotate` on a non-empty column list: the padding disappears into
`getD`, leaving the transpose of the columns indexed up to the longest
column's length. -/
lemma rotate_eq (cols : List (List (Option String))) (h : cols ≠ []) :
    rotate cols =
      some ((List.range ((cols.map List.length).foldr max 0)).map
        fun i => cols.map fun sub => sub.getD i none) := by
  cases cols with
  | nil => exact absurd rfl h
  | cons c cs =>
    set n := ((c :: cs).map List.length).foldr max 0 with hn
    set padFn : List (Option String) → List (Option String) :=
      fun sub => sub ++ List.replicate (n - sub.length) (none : Option String)
      with hpad
    have h1 : rotate (c :: cs) = some (pyZip ((c :: cs).map padFn)) := rfl
    have h2 : pyZip ((c :: cs).map padFn) =
        (List.range (minLen ((c :: cs).map padFn))).map
          fun i => ((c :: cs).map padFn).map fun sub => sub.getD i none := rfl
    have hlen : ∀ sub ∈ c :: cs, sub.length ≤ n := by
      intro sub hsub
      exact foldr_max_mem _ _ (List.mem_map_of_mem List.length hsub)
    have hpadlen : ∀ l ∈ (c :: cs).map padFn, l.length = n := by
      intro l hl
      obtain ⟨sub, hsub, rfl⟩ := List.mem_map.mp hl
      have := hlen sub hsub
      simp only [hpad, List.length_append, List.length_replicate]
      omega
    have hmin : minLen ((c :: cs).map padFn) = n :=
      minLen_eq _ n (by simp) hpadlen
    rw [h1, h2, hmin]
    congr 1
    apply List.map_congr_left
    intro i _
    rw [List.map_map]
    apply List.map_congr_left
    intro sub _
    exact getD_append_replicate sub _ i

lemma getD_map_range {β : Type} (n : Nat) (f : Nat → β) (i : Nat)
    (d : β) (h : i < n) : (((List.range n).map f).getD i d) = f i := by
  rw [List.getD_eq_getElem?_getD, List.getElem?_map, List.getElem?_range h]
  rfl

lemma getD_map_of_lt {α β : Type} (l : List α) (f : α → β)
    (j : Nat) (h : j < l.length) (d : β) (d0 : α) :
    (l.map f).getD j d = f (l.getD j d0) := by
  rw [List.getD_eq_getElem?_getD, List.getElem?_map,
    List.getElem?_eq_getElem h, List.getD_eq_getElem l d0 h]
  rfl

/- ### Concrete sample data used by witnesses and counterexamples -/

/-- A resolver that renders a voter id as its decimal string (the
fallback behaviour of `get_user`). -/
def sampleUser : Nat → String := fun n => toString n

/-- The spec's worked example: poll "Lunch?" with options "Pizza"
(voters 1, 2) and "Salad" (voter 3). -/
def samplePoll : PollData :=
  ⟨"Lunch?", 7, 1, [⟨"Pizza", [1, 2]⟩, ⟨"Salad", [3]⟩]⟩

/-- The same options under a different title, id and author. -/
def samplePollRetitled : PollData :=
  ⟨"Lunch again", 99, 2, [⟨"Pizza", [1, 2]⟩, ⟨"Salad", [3]⟩]⟩

/-- A poll whose option texts are not in sorted order. -/
def yamlDemoPoll : PollData := ⟨"t", 0, 0, [⟨"b", []⟩, ⟨"a", [5]⟩]⟩

/- ### Claims -/

/-- C1, counterexample: for the poll with option texts `["b", "a"]`,
the YAML document's key sequence is `["a", "b"]` (PyYAML's default
`sort_keys=True` alphabetizes), not the option order `["b", "a"]`, so
the i-th emitted key does not equal the i-th option text. -/
theorem yaml_key_order_counterexample :
    yamlKeys sampleUser yamlDemoPoll ≠ pollTexts yamlDemoPoll := by decide

/-- C1, amended: the YAML structured encoder emits its mapping keys in
ascending (Python string, code-point lexicographic) order: the key
sequence is sorted, is a permutation of the JSON encoder's key sequence
(the deduplicated option texts in first-occurrence order), and contains
exactly the option texts. -/
theorem yaml_keys_sorted_permutation (getUser : Nat → String)
    (p : PollData) :
    (yamlKeys getUser p).Pairwise (fun a b => strLe a b = true) ∧
    (yamlKeys getUser p).Perm (jsonKeys getUser p) ∧
    (∀ t, t ∈ yamlKeys getUser p ↔ t ∈ pollTexts p) := by
  have hperm : (yamlKeys getUser p).Perm (jsonKeys getUser p) :=
    (perm_sortPairsByKey (buildBuffer getUser p.poll_options)).map Prod.fst
  refine ⟨?_, hperm, ?_⟩
  · exact List.pairwise_map.mpr
      (sorted_sortPairsByKey (buildBuffer getUser p.poll_options))
  · intro t
    rw [hperm.mem_iff]
    rw [jsonKeys, buildBuffer, mem_keys_dictOfPairs, pollTexts, List.map_map]
    simp [Function.comp]

/-- C2, counterexample: in the csv export the lock-release event does
not precede the encode event nor the send event — the release happens
only after the buffer is closed. -/
theorem lock_release_order_counterexample :
    ¬((exportTrace ExportFormat.csv).indexOf ExportEvent.lockRelease <
        (exportTrace ExportFormat.csv).indexOf ExportEvent.encodeBuffer ∧
      (exportTrace ExportFormat.csv).indexOf ExportEvent.lockRelease <
        (exportTrace ExportFormat.csv).indexOf ExportEvent.sendFile) := by
  decide

/-- C2, amended: for every export operation (csv, json, yaml, pie,
bar), the per-poll lock is held across the whole body: it is acquired
before the copy-and-encode step and released only after the
network-bound send and the buffer close both complete. -/
theorem lock_held_across_encode_and_send (fmt : ExportFormat) :
    lockHeldDuring (exportTrace fmt) ExportEvent.encodeBuffer ∧
    lockHeldDuring (exportTrace fmt) ExportEvent.sendFile ∧
    (exportTrace fmt).indexOf ExportEvent.closeBuffer <
      (exportTrace fmt).indexOf ExportEvent.lockRelease := by
  cases fmt <;> exact ⟨by decide, by decide, by decide⟩

/-- C3: for a poll with an empty option sequence, the csv encoder does
not produce a header-only output — `rotate` evaluates
`max(map(len, []))`, which raises `ValueError` (modelled as `none`), so
the export fails instead of returning a payload. -/
theorem export_csv_empty_options_error (getUser : Nat → String)
    (title : String) (mid aid : Nat) :
    export_csv_rows getUser ⟨title, mid, aid, []⟩ = none := rfl

/-- C4: when the delivery step (`ctx.send`) fails after encoding
completed, the opened output buffer is NOT closed: `file.close()` is
sequenced after the send with no `try`/`finally`, so the exception
skips it (while on the success path the buffer is closed). -/
theorem send_failure_skips_buffer_close :
    (runExport (some BodyStep.sendStep)).encoded = true ∧
    (runExport (some BodyStep.sendStep)).bufferClosed = false ∧
    (runExport none).bufferClosed = true := by decide

/-- C9: the tabular and structured encoders are deterministic functions
of the snapshot: two polls with the same option data (texts and
voters) produce byte-identical csv, json and yaml payloads — in
particular, encoding the same snapshot twice yields identical output. -/
theorem export_payloads_deterministic (getUser : Nat → String)
    (p q : PollData) (h : p.poll_options = q.poll_options) :
    export_csv_payload getUser p = export_csv_payload getUser q ∧
    export_json_payload getUser p = export_json_payload getUser q ∧
    export_yaml_payload getUser p = export_yaml_payload getUser q := by
  refine ⟨?_, ?_, ?_⟩ <;>
    simp only [export_csv_payload, export_csv_rows, export_json_payload,
      export_yaml_payload, h]

/-- C9, witness: the determinism theorem applied to the "Lunch?" sample
snapshot (and the retitled copy carrying the same option data). -/
theorem export_payloads_deterministic_witness :
    samplePoll.poll_options = samplePollRetitled.poll_options ∧
    (export_csv_payload sampleUser samplePoll =
        export_csv_payload sampleUser samplePollRetitled ∧
      export_json_payload sampleUser samplePoll =
        export_json_payload sampleUser samplePollRetitled ∧
      export_yaml_payload sampleUser samplePoll =
        export_yaml_payload sampleUser samplePollRetitled) :=
  ⟨rfl, export_payloads_deterministic sampleUser samplePoll
    samplePollRetitled rfl⟩

/-- C10: when a poll contains two options with identical text, the
shared dict buffer of the json/yaml/pie/bar encoders collapses them
into a single entry for that text (its key count in the emitted key
sequence is one), whose value is the resolved voter list of the LAST
option carrying the text (the earlier option's voters are lost); the
chart labels are exactly the json keys; and only the csv encoder keeps
one column per option, duplicates included. -/
theorem duplicate_text_collapse (getUser : Nat → String) (p : PollData)
    (t : String) :
    (jsonKeys getUser p).count t = (if t ∈ pollTexts p then 1 else 0) ∧
    chartLabels getUser p = jsonKeys getUser p ∧
    dictLookup t (buildBuffer getUser p.poll_options) =
      (lastWithText t p.poll_options).map (fun o => o.voters.map getUser) ∧
    csvColumns getUser p.poll_options =
      p.poll_options.map
        (fun o => some o.text :: o.voters.map fun v => some (getUser v)) := by
  refine ⟨?_, rfl, ?_, rfl⟩
  · have hnodup : (jsonKeys getUser p).Nodup := by
      rw [jsonKeys, buildBuffer]
      exact nodup_keys_dictOfPairs _
    have hmem : t ∈ jsonKeys getUser p ↔ t ∈ pollTexts p := by
      rw [jsonKeys, buildBuffer, mem_keys_dictOfPairs, pollTexts,
        List.map_map]
      simp [Function.comp]
    by_cases ht : t ∈ pollTexts p
    · rw [if_pos ht]
      exact List.count_eq_one_of_mem hnodup (hmem.mpr ht)
    · rw [if_neg ht]
      exact List.count_eq_zero.mpr fun hmem2 => ht (hmem.mp hmem2)
  · rw [buildBuffer, dictLookup_dictOfPairs, lastPairWith_map_option,
      Option.map_map]
    rfl

/-- C8: with an empty query the resolver answers with the first 25
polls in their cache order, unfiltered and unranked; with an absent
(`None`) or empty poll list it answers with the empty list rather than
an error. -/
theorem autocomplete_empty_query_and_absent_cache
    (score : String → String → Nat) (fmtTime : Nat → String)
    (callerId : Nat) (priv : Bool) :
    (∀ ps : List PollData,
      poll_autocomplete score fmtTime "" callerId priv (some ps) =
        (ps.take 25).map (displayEntry fmtTime)) ∧
    (∀ query,
      poll_autocomplete score fmtTime query callerId priv none = []) ∧
    (∀ query,
      poll_autocomplete score fmtTime query callerId priv (some []) = []) := by
  refine ⟨?_, fun query => rfl, fun query => rfl⟩
  intro ps
  cases ps with
  | nil => rfl
  | cons q qs => rfl

/-- C7: for a non-empty query (and a non-empty poll list, the case in
which the ranked branch runs), the resolver's output is the ranked
result list rendered through the cache lookup; every ranked result has
similarity score strictly greater than 50 and stems from a candidate
visible to the caller (owner or privileged); the ranked results are
sorted descending by score and capped at 25. -/
theorem autocomplete_ranked_filtered (score : String → String → Nat)
    (fmtTime : Nat → String) (query : String) (callerId : Nat)
    (priv : Bool) (ps : List PollData) (hq : query ≠ "") (hne : ps ≠ []) :
    poll_autocomplete score fmtTime query callerId priv (some ps) =
      ((rankedResults score query callerId priv ps).filterMap fun r =>
        ps.find? fun p => p.message_id == r.2.2).map (displayEntry fmtTime) ∧
    (∀ r ∈ rankedResults score query callerId priv ps,
      50 < r.2.1 ∧ r.2.1 = score query r.1 ∧
      ∃ p, p ∈ ps ∧ autocompletePredicate callerId priv p = true ∧
        p.message_id = r.2.2 ∧ p.title = r.1) ∧
    (rankedResults score query callerId priv ps).Pairwise
      (fun a b => b.2.1 ≤ a.2.1) ∧
    (rankedResults score query callerId priv ps).length ≤ 25 := by
  refine ⟨?_, ?_, ?_, ?_⟩
  · have h1 : ps.isEmpty = false := List.isEmpty_eq_false.mpr hne
    simp [poll_autocomplete, h1, hq]
  · intro r hr
    rw [rankedResults] at hr
    obtain ⟨hmem, hscore⟩ := List.mem_filter.mp hr
    refine ⟨of_decide_eq_true hscore, ?_⟩
    rw [fuzzExtract] at hmem
    have hmem2 := List.mem_of_mem_take hmem
    have hmem3 := (perm_sortScoredDesc _).mem_iff.mp hmem2
    obtain ⟨c, hc, hrc⟩ := List.mem_map.mp hmem3
    rw [candChoices] at hc
    obtain ⟨p, hp, hpc⟩ := List.mem_map.mp (mem_dictOfPairs _ _ hc)
    obtain ⟨hps, hpred⟩ := List.mem_filter.mp hp
    subst hrc
    subst hpc
    exact ⟨rfl, p, hps, hpred, rfl, rfl⟩
  · rw [rankedResults, fuzzExtract]
    have hs := sorted_sortScoredDesc ((candChoices callerId priv ps).map
      fun c => (c.2, score query c.2, c.1))
    exact hs.sublist ((List.filter_sublist _).trans (List.take_sublist _ _))
  · rw [rankedResults]
    exact le_trans (List.length_filter_le _ _)
      (by rw [fuzzExtract]; exact List.length_take_le _ _)

/-- A scorer giving 90 to the title "Lunch?" and 30 to anything else. -/
def wScore : String → String → Nat := fun _ t => if t = "Lunch?" then 90 else 30

/-- A constant timestamp formatter. -/
def wTime : Nat → String := fun _ => "now"

/-- Two candidate polls owned by caller 1. -/
def wPolls : List PollData :=
  [⟨"Lunch?", 10, 1, []⟩, ⟨"Dinner?", 11, 1, []⟩]

/-- C7, witness: the ranked-branch theorem applied to the query "lnch"
over the two concrete candidate polls. -/
theorem autocomplete_ranked_filtered_witness :
    ("lnch" : String) ≠ "" ∧ wPolls ≠ [] ∧
    (poll_autocomplete wScore wTime "lnch" 1 false (some wPolls) =
      ((rankedResults wScore "lnch" 1 false wPolls).filterMap fun r =>
        wPolls.find? fun p => p.message_id == r.2.2).map (displayEntry wTime) ∧
    (∀ r ∈ rankedResults wScore "lnch" 1 false wPolls,
      50 < r.2.1 ∧ r.2.1 = wScore "lnch" r.1 ∧
      ∃ p, p ∈ wPolls ∧ autocompletePredicate 1 false p = true ∧
        p.message_id = r.2.2 ∧ p.title = r.1) ∧
    (rankedResults wScore "lnch" 1 false wPolls).Pairwise
      (fun a b => b.2.1 ≤ a.2.1) ∧
    (rankedResults wScore "lnch" 1 false wPolls).length ≤ 25) :=
  ⟨by decide, by decide,
    autocomplete_ranked_filtered wScore wTime "lnch" 1 false wPolls
      (by decide) (by decide)⟩

lemma csvColumns_lengths (getUser : Nat → String)
    (opts : List PollOption) :
    (csvColumns getUser opts).map List.length =
      opts.map fun o => o.voters.length + 1 := by
  rw [csvColumns, List.map_map]
  apply List.map_congr_left
  intro o _
  simp

lemma expectedLen_csv (getUser : Nat → String) (opts : List PollOption)
    (h : opts ≠ []) :
    ((csvColumns getUser opts).map List.length).foldr max 0 =
      maxVoterCount opts + 1 := by
  rw [csvColumns_lengths]
  have h2 : (opts.map fun o => o.voters.length + 1) =
      (opts.map fun o => o.voters.length).map (· + 1) := by
    rw [List.map_map]
    rfl
  have h3 : (opts.map fun o => o.voters.length) ≠ [] := by
    simp [h]
  rw [h2, foldr_max_succ _ h3]
  rfl

/-- C6: for every poll with at least one option, the csv encoder
succeeds and its row matrix has exactly `1 + max voter count` rows,
every row has exactly one cell per option, the first row is the option
texts, and for `i ≥ 1` the cell of row `i`, column `j` is the `i`-th
voter name of option `j` when it exists, and otherwise the explicit
empty (`None`) cell — never an omitted cell. -/
theorem export_csv_table_shape (getUser : Nat → String) (p : PollData)
    (h : p.poll_options ≠ []) :
    ∃ rows, export_csv_rows getUser p = some rows ∧
      rows.length = 1 + maxVoterCount p.poll_options ∧
      (∀ r ∈ rows, r.length = p.poll_options.length) ∧
      rows.getD 0 [] = p.poll_options.map (fun o => some o.text) ∧
      (∀ i j, 1 ≤ i → i < rows.length → j < p.poll_options.length →
        (rows.getD i []).getD j none =
          ((p.poll_options.getD j ⟨"", []⟩).voters.map
            fun v => some (getUser v)).getD (i - 1) none) := by
  have hcols : csvColumns getUser p.poll_options ≠ [] := by
    rw [csvColumns]
    simp [h]
  have hexp : ((csvColumns getUser p.poll_options).map List.length).foldr
      max 0 = maxVoterCount p.poll_options + 1 :=
    expectedLen_csv getUser p.poll_options h
  have hrows : export_csv_rows getUser p =
      some ((List.range (maxVoterCount p.poll_options + 1)).map
        fun i => (csvColumns getUser p.poll_options).map
          fun sub => sub.getD i none) := by
    rw [export_csv_rows, rotate_eq _ hcols, hexp]
  refine ⟨_, hrows, ?_, ?_, ?_, ?_⟩
  · simp [Nat.add_comm]
  · intro r hr
    obtain ⟨i, hi, rfl⟩ := List.mem_map.mp hr
    simp [csvColumns]
  · rw [getD_map_range _ _ 0 [] (by omega)]
    rw [csvColumns, List.map_map]
    apply List.map_congr_left
    intro o _
    simp
  · intro i j h1 h2 h3
    have hin : i < maxVoterCount p.poll_options + 1 := by
      simpa using h2
    rw [getD_map_range _ _ i [] hin]
    rw [csvColumns, List.map_map]
    rw [getD_map_of_lt p.poll_options _ j h3 none ⟨"", []⟩]
    obtain ⟨i', rfl⟩ : ∃ i', i = i' + 1 := ⟨i - 1, by omega⟩
    simp [Function.comp]

/-- C6, witness: the table-shape theorem applied to the "Lunch?"
sample poll. -/
theorem export_csv_table_shape_witness :
    samplePoll.poll_options ≠ [] ∧
    (∃ rows, export_csv_rows sampleUser samplePoll = some rows ∧
      rows.length = 1 + maxVoterCount samplePoll.poll_options ∧
      (∀ r ∈ rows, r.length = samplePoll.poll_options.length) ∧
      rows.getD 0 [] = samplePoll.poll_options.map (fun o => some o.text) ∧
      (∀ i j, 1 ≤ i → i < rows.length →
          j < samplePoll.poll_options.length →
        (rows.getD i []).getD j none =
          ((samplePoll.poll_options.getD j ⟨"", []⟩).voters.map
            fun v => some (sampleUser v)).getD (i - 1) none)) :=
  ⟨by decide, export_csv_table_shape sampleUser samplePoll (by decide)⟩
